import Mathlib

/-!
Verification development for the dastore package-manager frontend
(`src/main.py`).  The Python source is shallowly embedded: pure fragments
become Lean functions over `List Char` / `String`, progress fractions are
modelled in `ℚ` (the source uses exact decimal constants and ratios of
parsed byte counts), and the streaming output loop becomes a step function
over an explicit loop state fed with a list of timed output lines.

Python string primitives are re-implemented structurally (ASCII case
folding, whitespace splitting, substring search) so that all concrete
evaluations reduce in the kernel.
-/

/-- ASCII lowering of a string, modelling Python `str.lower()` on the
ASCII data that flows through the program. -/
def pyLower (s : String) : String := String.mk (s.toList.map Char.toLower)

/-- ASCII uppering of a string, modelling Python `str.upper()`. -/
def pyUpper (s : String) : String := String.mk (s.toList.map Char.toUpper)

/-- Python `s.startswith(pre)`. -/
def pyStartsWith (s pre : String) : Bool := pre.toList.isPrefixOf s.toList

/-- Python `s.endswith(suf)`. -/
def pyEndsWith (s suf : String) : Bool := suf.toList.isSuffixOf s.toList

/-- Python `s.strip()`: drop leading and trailing whitespace. -/
def pyStrip (s : String) : String :=
  String.mk (((s.toList.dropWhile Char.isWhitespace).reverse.dropWhile
    Char.isWhitespace).reverse)

/-- Substring search on character lists: does `pat` occur inside `s`?
Models the Python `pat in s` test. -/
def subSearch (pat : List Char) : List Char → Bool
  | [] => pat.isEmpty
  | c :: rest => pat.isPrefixOf (c :: rest) || subSearch pat rest

/-- Python `pat in s` on strings. -/
def strContains (s pat : String) : Bool := subSearch pat.toList s.toList

/-- Split on a single separator character, keeping empty fields,
modelling Python `s.split(sep)` with a one-character separator. -/
def splitOnChar (sep : Char) : List Char → List (List Char)
  | [] => [[]]
  | c :: rest =>
    if c == sep then [] :: splitOnChar sep rest
    else
      match splitOnChar sep rest with
      | h :: t => (c :: h) :: t
      | [] => [[c]]

/-- Python `s.split(sep)` for a one-character separator, as strings. -/
def pySplitOn (s : String) (sep : Char) : List String :=
  (splitOnChar sep s.toList).map String.mk

/-- Helper for whitespace splitting: `acc` holds the reversed current
token. -/
def splitWsAux : List Char → List Char → List (List Char)
  | acc, [] => if acc.isEmpty then [] else [acc.reverse]
  | acc, c :: rest =>
    if c.isWhitespace then
      if acc.isEmpty then splitWsAux [] rest
      else acc.reverse :: splitWsAux [] rest
    else splitWsAux (c :: acc) rest

/-- Python `s.split()` with no argument: split on whitespace runs and
discard empty fields. -/
def pySplitWs (s : String) : List String :=
  (splitWsAux [] s.toList).map String.mk

/-- Replace occurrences of `pat` left to right, fuelled by the input
length; models Python `s.replace(pat, repl)` for nonempty `pat`. -/
def replaceAux (pat repl : List Char) : Nat → List Char → List Char
  | 0, cs => cs
  | _ + 1, [] => []
  | fuel + 1, c :: rest =>
    if pat.isPrefixOf (c :: rest) && !pat.isEmpty then
      repl ++ replaceAux pat repl fuel ((c :: rest).drop pat.length)
    else c :: replaceAux pat repl fuel rest

/-- Python `s.replace(pat, repl)`. -/
def pyReplace (s pat repl : String) : String :=
  String.mk (replaceAux pat.toList repl.toList s.toList.length s.toList)

/-- The fields of `PackageInfo` that the verified components read
(`name`, `version`, `description`, `repo`, `installed`); the remaining
fields of the Python class are presentation-only and never consulted by
the queue, the merger or the orchestrator. -/
structure PackageInfo where
  name : String
  version : String
  description : String
  repo : String
  installed : Bool
deriving DecidableEq

/-- `PackageQueue.add_package`: no-op when a package with the same name
is already queued, otherwise append. -/
def add_package (q : List PackageInfo) (p : PackageInfo) : List PackageInfo :=
  if q.any (fun r => r.name == p.name) then q else q ++ [p]

/-- `PackageQueue.remove_package`: drop every record whose name matches. -/
def remove_package (q : List PackageInfo) (p : PackageInfo) : List PackageInfo :=
  q.filter (fun r => r.name != p.name)

/-- `PackageQueue.clear`: empty the queue. -/
def clearQueue (_q : List PackageInfo) : List PackageInfo := []

/-- One mutating call on the pending-install queue. -/
inductive QueueOp
  | add (p : PackageInfo)
  | remove (p : PackageInfo)
  | clear

/-- Apply one queue call. -/
def applyQueueOp (q : List PackageInfo) : QueueOp → List PackageInfo
  | .add p => add_package q p
  | .remove p => remove_package q p
  | .clear => clearQueue q

/-- Run a sequence of queue calls starting from the empty queue. -/
def runQueueOps (ops : List QueueOp) : List PackageInfo :=
  ops.foldl applyQueueOp []

/-- Names listed in a queue. -/
def queueNames (q : List PackageInfo) : List String := q.map (fun p => p.name)

/-- Description lookup shared by both parsers: the record's description
is the stripped following line when that line starts with four spaces,
and the empty string otherwise. -/
def descriptionFrom (next? : Option String) : String :=
  match next? with
  | some nl => if pyStartsWith nl "    " then pyStrip nl else ""
  | none => ""

/-- Python `'[installed]' in line or '[installed:' in line`. -/
def installedFlag (line : String) : Bool :=
  strContains line "[installed]" || strContains line "[installed:"

/-- One header line of `pacman -Ss` output (`MainWindow.parse_pacman_search`
loop body): a nonempty line not starting with a space, split on `/`; the
segment after the first slash must hold a name and a version. -/
def pacmanHeaderRecord (line : String) (next? : Option String) :
    Option PackageInfo :=
  if line != "" && !(pyStartsWith line " ") then
    match pySplitOn line '/' with
    | repo :: second :: _ =>
      match pySplitWs second with
      | name :: version :: _ =>
        some ⟨name, version, descriptionFrom next?, repo, installedFlag line⟩
      | _ => none
    | _ => none
  else none

/-- Line-by-line traversal of `parse_pacman_search`, with one-line
lookahead for the description. -/
def parsePacmanGo : List String → List PackageInfo
  | [] => []
  | line :: rest => (pacmanHeaderRecord line rest.head?).toList ++ parsePacmanGo rest

/-- `MainWindow.parse_pacman_search`. -/
def parse_pacman_search (output : String) : List PackageInfo :=
  parsePacmanGo (pySplitOn (pyStrip output) '\n')

/-- One header line of `yay -Ss --aur` output (`MainWindow.parse_aur_search`
loop body): a line starting with `aur/`, whitespace-split; the name is the
first field with every `aur/` occurrence removed, the version the second. -/
def aurHeaderRecord (line : String) (next? : Option String) :
    Option PackageInfo :=
  if pyStartsWith line "aur/" then
    match pySplitWs line with
    | first :: version :: _ =>
      some ⟨pyReplace first "aur/" "", version, descriptionFrom next?, "AUR",
        installedFlag line⟩
    | _ => none
  else none

/-- Line-by-line traversal of `parse_aur_search`. -/
def parseAurGo : List String → List PackageInfo
  | [] => []
  | line :: rest => (aurHeaderRecord line rest.head?).toList ++ parseAurGo rest

/-- `MainWindow.parse_aur_search`. -/
def parse_aur_search (output : String) : List PackageInfo :=
  parseAurGo (pySplitOn (pyStrip output) '\n')

/-- One step of the duplicate-elimination loop in
`MainWindow.search_packages`: a record with a fresh name is appended; a
record whose repo is not `aur` (case-insensitively) replaces, in place, a
previously kept record of the same name whose repo is `aur`.  The source
replaces `unique_packages[idx]` where `idx` locates the record stored in
`seen_packages`; since the accumulator never holds two records with the
same name (proved below), replacing the unique name-matching element is
the same operation. -/
def mergeStep (acc : List PackageInfo) (p : PackageInfo) : List PackageInfo :=
  match acc.find? (fun q => q.name == p.name) with
  | none => acc ++ [p]
  | some q =>
    if pyLower p.repo != "aur" && pyLower q.repo == "aur" then
      acc.map (fun r => if r.name == p.name then p else r)
    else acc

/-- The duplicate-elimination pass of `MainWindow.search_packages`,
applied to the concatenated parsed result lists. -/
def dedupMerge (ps : List PackageInfo) : List PackageInfo :=
  ps.foldl mergeStep []

/-- First record with the given name, as the merge loop looks it up. -/
def firstNamed (n : String) (l : List PackageInfo) : Option PackageInfo :=
  l.find? (fun p => p.name == n)

/-- Name-indexed abstraction of `mergeStep`: how the record kept for one
fixed name evolves when one more record is folded in. -/
def prefMerge (o : Option PackageInfo) (p : PackageInfo) : Option PackageInfo :=
  match o with
  | none => some p
  | some q =>
    if pyLower p.repo != "aur" && pyLower q.repo == "aur" then some p else some q

/-- Name/description tier of `MainWindow.calculate_relevance_score`:
the first matching condition of the `if`/`elif` chain contributes, all
arguments already lowercased. -/
def relTier (name_lower query_lower desc_lower : String) : Int :=
  if name_lower == query_lower then 1000
  else if pyStartsWith name_lower query_lower then 800
  else if strContains (" " ++ name_lower ++ " ") (" " ++ query_lower ++ " ")
      || pyEndsWith name_lower query_lower then 600
  else if strContains name_lower query_lower then 400
  else if strContains (" " ++ desc_lower ++ " ") (" " ++ query_lower ++ " ")
    then 200
  else if strContains desc_lower query_lower then 100
  else 0

/-- `MainWindow.calculate_relevance_score`: the single name tier plus the
installed, primary-source and name-length adjustments, accumulated in
source order. -/
def calculate_relevance_score (package : PackageInfo) (query : String) : Int :=
  relTier (pyLower package.name) (pyLower query)
      (if package.description != "" then pyLower package.description else "")
    + (if package.installed then 50 else 0)
    + (if pyLower package.repo != "aur" then 30 else 0)
    + max 0 (20 - (package.name.length : Int) / 2)
    - (if package.name.length > 20 then 20 else 0)

/-- Longest digit prefix of a character list, with the remainder. -/
def digitsPrefix : List Char → List Char × List Char
  | [] => ([], [])
  | c :: rest =>
    if c.isDigit then
      match digitsPrefix rest with
      | (d, r) => (c :: d, r)
    else ([], c :: rest)

/-- Decimal digits to a natural number, as Python `int` reads them. -/
def digitsToNat (ds : List Char) : Nat :=
  ds.foldl (fun n c => 10 * n + (c.toNat - 48)) 0

/-- Match the regex `\((\d+)%\)` at the head of the list, returning the
captured percentage. -/
def matchPercentAt : List Char → Option Nat
  | '(' :: rest =>
    match digitsPrefix rest with
    | ([], _) => none
    | (ds, r) =>
      match r with
      | '%' :: ')' :: _ => some (digitsToNat ds)
      | _ => none
  | _ => none

/-- Leftmost match of `\((\d+)%\)`, modelling `progress_pattern.search`.
The pattern pieces lie in disjoint character classes, so greedy matching
with no backtracking is exact. -/
def searchPercent : List Char → Option Nat
  | [] => none
  | c :: rest =>
    match matchPercentAt (c :: rest) with
    | some n => some n
    | none => searchPercent rest

/-- A `[KMGT]` unit character, case-insensitively. -/
def isUnitChar (c : Char) : Bool :=
  c == 'K' || c == 'M' || c == 'G' || c == 'T' ||
  c == 'k' || c == 'm' || c == 'g' || c == 't'

/-- Match one size token `\d+\.?\d*[KMGT]?iB` (case-insensitive suffix)
at the head of the list, returning the matched characters and the rest. -/
def matchSizeTokenAt (cs : List Char) : Option (List Char × List Char) :=
  match digitsPrefix cs with
  | ([], _) => none
  | (d1, r1) =>
    let dotR2 : List Char × List Char :=
      match r1 with
      | '.' :: r => (['.'], r)
      | _ => ([], r1)
    match digitsPrefix dotR2.2 with
    | (d2, r3) =>
      let uR4 : List Char × List Char :=
        match r3 with
        | c :: r => if isUnitChar c then ([c], r) else ([], r3)
        | [] => ([], [])
      match uR4.2 with
      | i :: b :: r5 =>
        if (i == 'i' || i == 'I') && (b == 'b' || b == 'B') then
          some (d1 ++ dotR2.1 ++ d2 ++ uR4.1 ++ [i, b], r5)
        else none
      | _ => none

/-- Match the full pair `token/token` at the head of the list. -/
def matchSizePairAt (cs : List Char) : Option (String × String) :=
  match matchSizeTokenAt cs with
  | none => none
  | some (t1, r) =>
    match r with
    | '/' :: r2 =>
      match matchSizeTokenAt r2 with
      | none => none
      | some (t2, _) => some (String.mk t1, String.mk t2)
    | _ => none

/-- Leftmost match of `download_size_pattern`
(`(\d+\.?\d*[KMGT]?iB)\/(\d+\.?\d*[KMGT]?iB)`, IGNORECASE); again the
character classes are disjoint so greedy matching is exact. -/
def searchSizePair : List Char → Option (String × String)
  | [] => none
  | c :: rest =>
    match matchSizePairAt (c :: rest) with
    | some p => some p
    | none => searchSizePair rest

/-- Python `float()` on the decimal strings reachable from the size
regex (`digits`, optionally followed by a dot and digits). -/
def parseDecimal (s : String) : Option ℚ :=
  match digitsPrefix s.toList with
  | ([], _) => none
  | (d1, r1) =>
    match r1 with
    | [] => some ((digitsToNat d1 : ℚ))
    | '.' :: r2 =>
      match digitsPrefix r2 with
      | (d2, r3) =>
        if r3.isEmpty then
          some ((digitsToNat d1 : ℚ) + (digitsToNat d2 : ℚ) / 10 ^ d2.length)
        else none
    | _ => none

/-- Python `s[:-k]`. -/
def pyDropRight (s : String) (k : Nat) : String :=
  String.mk (s.toList.take (s.toList.length - k))

/-- The nested `parse_size` helper of
`InstallProgressWindow.execute_operation`: uppercase, match the unit
suffix, convert with the 1024 ladder; byte counts are exact rationals. -/
def parse_size (size_str : String) : Option ℚ :=
  let u := pyUpper size_str
  if pyEndsWith u "KIB" || pyEndsWith u "KB" then
    (parseDecimal (pyDropRight u 3)).map (fun x => x * 1024)
  else if pyEndsWith u "MIB" || pyEndsWith u "MB" then
    (parseDecimal (pyDropRight u 3)).map (fun x => x * (1024 * 1024))
  else if pyEndsWith u "GIB" || pyEndsWith u "GB" then
    (parseDecimal (pyDropRight u 3)).map (fun x => x * (1024 * 1024 * 1024))
  else
    parseDecimal (pyReplace (pyReplace u "IB" "") "B" "")

/-- The ordered phase-header table of `execute_operation` with its fixed
fraction checkpoints and status labels, in source order. -/
def phaseTable : List (String × ℚ × String) :=
  [("resolving dependencies", 0.05, "Resolving dependencies..."),
   ("checking dependencies", 0.1, "Checking dependencies..."),
   ("retrieving packages", 0.15, "Retrieving packages..."),
   ("checking keyring", 0.2, "Checking package integrity..."),
   ("loading package files", 0.25, "Loading packages..."),
   ("checking for conflicts", 0.3, "Checking for conflicts..."),
   ("checking available disk space", 0.35, "Checking disk space..."),
   ("running pre-transaction hooks", 0.4, "Running pre-transaction hooks..."),
   ("processing package changes", 0.45, "Processing package changes..."),
   ("running post-transaction hooks", 0.9, "Running post-transaction hooks...")]

/-- First phase-header phrase contained in the lowercased line, as the
`elif` chain tests them in order. -/
def findPhase (lineLower : String) : Option (ℚ × String) :=
  (phaseTable.find? (fun e => strContains lineLower e.1)).map (fun e => e.2)

/-- The two authentication-failure phrases tested on every raw line. -/
def hasAuthPhrase (line : String) : Bool :=
  strContains line "sudo: a password is required" ||
  strContains line "sudo: a terminal is required"

/-- Which classification rule produced a progress event (model
instrumentation; the label and detail strings keep the source values). -/
inductive RuleTag
  | init | authFail | percent | sizePair | phase | stall | exitStatus
deriving DecidableEq

/-- One `update_progress` call: fraction, status label, detail line. -/
structure Ev where
  fraction : ℚ
  status : String
  detail : String
  rule : RuleTag
deriving DecidableEq

/-- One streamed output line together with the `time.time()` value
observed when it is processed. -/
structure TimedLine where
  text : String
  time : ℚ
deriving DecidableEq

/-- The loop-carried state of the read loop: `total_lines`,
`last_progress_time`, `last_log_line`. -/
structure LoopState where
  totalLines : Nat
  lastProgressTime : ℚ
  lastLogLine : String
deriving DecidableEq

/-- Result of the read loop: emitted progress events, how many lines
were consumed, whether the authentication-failure branch broke the loop,
and the final state. -/
structure LoopResult where
  events : List Ev
  consumed : Nat
  authBroke : Bool
  finalState : LoopState
deriving DecidableEq

/-- The stall-fallback fraction `min(0.1 + total_lines * 0.001, 0.95)`. -/
def stallFrac (k : Nat) : ℚ := min (0.1 + (k : ℚ) * 0.001) 0.95

/-- The event emitted on an authentication-failure line. -/
def authFailEvent : Ev :=
  ⟨1, "Authentication failed", "Check your sudo/polkit configuration",
    RuleTag.authFail⟩

/-- Classification of one non-authentication line (the `elif` chain of
`execute_operation` after the auth check): the possible progress event
and whether `last_progress_time` is reset. -/
def classifyEv (st : LoopState) (l : TimedLine) : Option Ev × Bool :=
  match searchPercent l.text.toList with
  | some n =>
    if strContains (pyLower l.text) "downloading" then
      (some ⟨0.1 + ((n : ℚ) / 100) * 0.3, "Downloading...", pyStrip l.text,
        RuleTag.percent⟩, true)
    else if strContains (pyLower l.text) "installing" then
      (some ⟨0.4 + ((n : ℚ) / 100) * 0.5, "Installing...", pyStrip l.text,
        RuleTag.percent⟩, true)
    else
      (some ⟨0.1 + ((n : ℚ) / 100) * 0.8, "Processing...", pyStrip l.text,
        RuleTag.percent⟩, true)
  | none =>
    match searchSizePair l.text.toList with
    | some (cur, tot) =>
      match parse_size cur, parse_size tot with
      | some csz, some tsz =>
        if 0 < tsz then
          (some ⟨0.1 + csz / tsz * 0.3, "Downloading...",
            "Downloaded " ++ cur ++ " of " ++ tot, RuleTag.sizePair⟩, true)
        else (none, false)
      | _, _ => (none, false)
    | none =>
      match findPhase (pyLower l.text) with
      | some fl => (some ⟨fl.1, fl.2, pyStrip l.text, RuleTag.phase⟩, true)
      | none =>
        if strContains (pyLower l.text) ":: proceed with installation?" then
          (none, false)
        else if 2 < l.time - st.lastProgressTime then
          (some ⟨stallFrac (st.totalLines + 1), "Processing...",
            pyStrip l.text, RuleTag.stall⟩, true)
        else (none, false)

/-- One full non-authentication iteration: increment `total_lines`, set
`last_log_line`, classify, and reset the progress clock when an event
was emitted by a timer-resetting rule. -/
def classifyRest (st : LoopState) (l : TimedLine) : Option Ev × LoopState :=
  ((classifyEv st l).1,
   ⟨st.totalLines + 1,
    if (classifyEv st l).2 then l.time else st.lastProgressTime,
    pyStrip l.text⟩)

/-- The streaming read loop of `execute_operation` (lines 598-699 of the
source), fed with the list of lines the process produces; cancellation
is never requested in the runs the claims quantify over. -/
def runLines (st : LoopState) : List TimedLine → LoopResult
  | [] => ⟨[], 0, false, st⟩
  | l :: rest =>
    if hasAuthPhrase l.text then
      ⟨[authFailEvent], 1, true,
        ⟨st.totalLines + 1, st.lastProgressTime, pyStrip l.text⟩⟩
    else
      ⟨(classifyRest st l).1.toList ++ (runLines (classifyRest st l).2 rest).events,
       (runLines (classifyRest st l).2 rest).consumed + 1,
       (runLines (classifyRest st l).2 rest).authBroke,
       (runLines (classifyRest st l).2 rest).finalState⟩

/-- The ten phase-header lines in canonical order, one per streamed
line. -/
def phaseLines : List TimedLine :=
  [⟨"resolving dependencies", 0⟩, ⟨"checking dependencies", 0⟩,
   ⟨"retrieving packages", 0⟩, ⟨"checking keyring", 0⟩,
   ⟨"loading package files", 0⟩, ⟨"checking for conflicts", 0⟩,
   ⟨"checking available disk space", 0⟩,
   ⟨"running pre-transaction hooks", 0⟩,
   ⟨"processing package changes", 0⟩,
   ⟨"running post-transaction hooks", 0⟩]

/-- The fractions emitted by the stall-fallback rule, in emission
order. -/
def stallFractions (r : LoopResult) : List ℚ :=
  (r.events.filter (fun e => e.rule == RuleTag.stall)).map (fun e => e.fraction)

/-- The single-target operation kinds of `execute_operation`. -/
inductive OpKind
  | install | uninstall | update | system_update
deriving DecidableEq

/-- The Python `self.operation` string. -/
def opString : OpKind → String
  | .install => "install"
  | .uninstall => "uninstall"
  | .update => "update"
  | .system_update => "system_update"

/-- The initial `update_progress(0.05, ...)` call of each kind. -/
def initEvent : OpKind → Ev
  | .install =>
    ⟨0.05, "Initializing installation...", "Resolving dependencies...",
      RuleTag.init⟩
  | .uninstall =>
    ⟨0.05, "Initializing uninstallation...", "Checking dependencies...",
      RuleTag.init⟩
  | .update =>
    ⟨0.05, "Initializing update...", "Checking for updates...", RuleTag.init⟩
  | .system_update =>
    ⟨0.05, "Initializing system update...", "Checking for updates...",
      RuleTag.init⟩

/-- The terminal `update_progress(1.0, ...)` call when the process exits
with code 0. -/
def successEvent (op : OpKind) (name : String) : Ev :=
  match op with
  | .install =>
    ⟨1, "✓ " ++ name ++ " installed successfully!", "Installation completed",
      RuleTag.exitStatus⟩
  | .uninstall =>
    ⟨1, "✓ " ++ name ++ " uninstalled successfully!",
      "Uninstallation completed", RuleTag.exitStatus⟩
  | .update =>
    ⟨1, "✓ " ++ name ++ " updated successfully!", "Update completed",
      RuleTag.exitStatus⟩
  | .system_update =>
    ⟨1, "✓ System updated successfully!", "System update completed",
      RuleTag.exitStatus⟩

/-- The terminal `update_progress(1.0, ...)` call when the process exits
with a non-zero code. -/
def failEvent (op : OpKind) (name : String) : Ev :=
  match op with
  | .system_update =>
    ⟨1, "✗ Failed to update system", "Update failed", RuleTag.exitStatus⟩
  | _ =>
    ⟨1, "✗ Failed to " ++ opString op ++ " " ++ name, "Operation failed",
      RuleTag.exitStatus⟩

/-- Result of one uncancelled `execute_operation` run: all
`update_progress` events in order, the number of lines read from the
process, and whether the authentication-failure branch terminated the
read loop. -/
structure RunResult where
  events : List Ev
  consumed : Nat
  terminatedByAuth : Bool
deriving DecidableEq

/-- `InstallProgressWindow.execute_operation` for an uncancelled run:
the initial event, the read loop over the process output, then —
whether or not the loop was broken by the authentication check — the
wait on the process and the exit-code branch, which emits a success
event on exit code 0 and a generic failure event otherwise. -/
def execute_operation (op : OpKind) (pkgName : String) (t0 : ℚ)
    (lines : List TimedLine) (returncode : Int) : RunResult :=
  ⟨initEvent op ::
      (runLines ⟨0, t0, ""⟩ lines).events ++
      [if returncode == 0 then successEvent op pkgName
       else failEvent op pkgName],
   (runLines ⟨0, t0, ""⟩ lines).consumed,
   (runLines ⟨0, t0, ""⟩ lines).authBroke⟩

/-- `PackageQueue.get_separated_packages`: order-preserving partition of
the queue into (pacman, AUR) halves, a member counting as alternate
source when its repo is `aur` or `popular` case-insensitively. -/
def get_separated_packages (packages : List PackageInfo) :
    List PackageInfo × List PackageInfo :=
  (packages.filter
     (fun p => !(pyLower p.repo == "aur" || pyLower p.repo == "popular")),
   packages.filter
     (fun p => pyLower p.repo == "aur" || pyLower p.repo == "popular"))

/-- Terminal outcome of one batch queue-install run, named after the
final status label it reports. -/
inductive QOutcome
  | success | failedPacman | failedAur | cancelled
deriving DecidableEq

/-- The values of the cooperative `self.cancelled` flag as
`execute_queue_install` observes it at its four checkpoints: after the
pacman read loop (`if not self.cancelled` before `wait`), at the AUR
guard (`if aur_packages and not self.cancelled`), after the AUR read
loop, and at the final success check.  The flag only ever moves from
false to true, which the `Monotone` predicate records. -/
structure CancelSchedule where
  afterPacmanLoop : Bool
  beforeAur : Bool
  afterAurLoop : Bool
  atEnd : Bool
deriving DecidableEq

/-- The cancellation flag never reverts to false. -/
def CancelSchedule.Monotone (c : CancelSchedule) : Prop :=
  (c.afterPacmanLoop = true → c.beforeAur = true) ∧
  (c.beforeAur = true → c.afterAurLoop = true) ∧
  (c.afterAurLoop = true → c.atEnd = true)

/-- A run during which cancellation is never requested. -/
def noCancel : CancelSchedule := ⟨false, false, false, false⟩

/-- Result of one batch run: which sub-commands were launched, the
terminal outcome with its status label, and the queue contents after the
run (the run mutates the queue only through `clear`). -/
structure QueueRunResult where
  pacmanLaunched : Bool
  aurLaunched : Bool
  outcome : QOutcome
  statusLabel : String
  queueAfter : List PackageInfo
  queueCleared : Bool
deriving DecidableEq

/-- `InstallProgressWindow.execute_queue_install`.  The per-line
streaming of the two sub-process loops is abstracted: within each loop
the only effects relevant to launching, outcome and queue state are the
sub-process exit code (a parameter; an authentication failure inside a
loop surfaces as a non-zero code of the terminated process) and the
cancellation flag, observed at the four checkpoints of
`CancelSchedule`.  Control flow mirrors the source: a non-zero pacman
exit (observed only when not cancelled) returns before the AUR block;
the AUR block runs only when AUR packages exist and cancellation is
unobserved; the queue is cleared exactly in the final success branch. -/
def execute_queue_install (queue : List PackageInfo) (c : CancelSchedule)
    (pacmanReturncode aurReturncode : Int) : QueueRunResult :=
  if !(get_separated_packages queue).1.isEmpty && !c.afterPacmanLoop
      && (pacmanReturncode != 0) then
    ⟨true, false, QOutcome.failedPacman,
      "✗ Failed to install official packages", queue, false⟩
  else if (!(get_separated_packages queue).2.isEmpty && !c.beforeAur)
      && !c.afterAurLoop && (aurReturncode != 0) then
    ⟨!(get_separated_packages queue).1.isEmpty, true, QOutcome.failedAur,
      "✗ Failed to install AUR packages", queue, false⟩
  else if !c.atEnd then
    ⟨!(get_separated_packages queue).1.isEmpty,
      !(get_separated_packages queue).2.isEmpty && !c.beforeAur,
      QOutcome.success, "✓ Queue installed successfully!", [], true⟩
  else
    ⟨!(get_separated_packages queue).1.isEmpty,
      !(get_separated_packages queue).2.isEmpty && !c.beforeAur,
      QOutcome.cancelled, "Installation cancelled", queue, false⟩

theorem add_package_nodupNames (q : List PackageInfo) (p : PackageInfo)
    (h : (queueNames q).Nodup) : (queueNames (add_package q p)).Nodup := by
  unfold add_package
  by_cases hq : q.any (fun r => r.name == p.name)
  · simpa [hq] using h
  · rw [if_neg hq]
    unfold queueNames
    rw [List.map_append]
    refine List.Nodup.append h (by simp) ?_
    intro a ha hb
    simp only [List.map_cons, List.map_nil, List.mem_singleton] at hb
    subst hb
    simp only [List.any_eq_true, beq_iff_eq] at hq
    rcases List.mem_map.mp ha with ⟨r, hr, hname⟩
    exact hq ⟨r, hr, hname⟩

theorem remove_package_nodupNames (q : List PackageInfo) (p : PackageInfo)
    (h : (queueNames q).Nodup) : (queueNames (remove_package q p)).Nodup := by
  unfold remove_package queueNames
  exact List.Nodup.sublist (List.Sublist.map _ (List.filter_sublist q)) h

theorem applyQueueOp_nodupNames (q : List PackageInfo) (op : QueueOp)
    (h : (queueNames q).Nodup) : (queueNames (applyQueueOp q op)).Nodup := by
  cases op with
  | add p => exact add_package_nodupNames q p h
  | remove p => exact remove_package_nodupNames q p h
  | clear => simp [applyQueueOp, clearQueue, queueNames]

theorem foldl_queueOps_nodupNames (ops : List QueueOp) :
    ∀ q : List PackageInfo, (queueNames q).Nodup →
      (queueNames (ops.foldl applyQueueOp q)).Nodup := by
  induction ops with
  | nil => intro q h; simpa using h
  | cons op rest ih =>
    intro q h
    exact ih (applyQueueOp q op) (applyQueueOp_nodupNames q op h)

/-- C4: starting from the empty queue, no sequence of `add_package`,
`remove_package` and `clear` calls ever leaves two records with the same
name in the queue. -/
theorem C4_queue_dedup_invariant (ops : List QueueOp) :
    (queueNames (runQueueOps ops)).Nodup := by
  unfold runQueueOps
  exact foldl_queueOps_nodupNames ops [] (by simp [queueNames])

theorem parseAurGo_repo (lines : List String) :
    ∀ p ∈ parseAurGo lines, p.repo = "AUR" := by
  induction lines with
  | nil => intro p hp; simp [parseAurGo] at hp
  | cons line rest ih =>
    intro p hp
    simp only [parseAurGo, List.mem_append] at hp
    rcases hp with hp | hp
    · unfold aurHeaderRecord at hp
      rcases hb : pyStartsWith line "aur/" with _ | _ <;> rw [hb] at hp
      · simp at hp
      · rcases hs : pySplitWs line with _ | ⟨a, _ | ⟨b, t⟩⟩ <;> rw [hs] at hp <;>
          simp at hp
        rw [hp]
    · exact ih p hp

/-- C10 counterexample: the AUR header line `"aur/ 1.0"` lacks a package
name (nothing stands between the `aur/` tag and the version field), yet
`parse_aur_search` still contributes a record for it, with empty name —
the claim says such a line contributes no record. -/
theorem C10_counterexample :
    parse_aur_search "aur/ 1.0" = [⟨"", "1.0", "", "AUR", false⟩] ∧
    (parse_aur_search "aur/ 1.0").map (fun p => p.name) = [""] := by decide

/-- C10 (amended): both parsers are total by construction; for
`parse_pacman_search` a header line lacking the repo/name separator, the
name, or the version contributes no record; for `parse_aur_search` a line
lacking the `aur/` prefix or a second whitespace-separated field
contributes no record (but a header whose name part is empty still
contributes a record with empty name, per the counterexample); each
produced record's description is the stripped following line when that
line starts with four spaces and the empty string otherwise; and every
`parse_aur_search` record has repo exactly `"AUR"`. -/
theorem C10_parsers_partial_lines_amended :
    (∀ line next?, (pySplitOn line '/').length < 2 →
        pacmanHeaderRecord line next? = none) ∧
    (∀ line next? repo second rest,
        pySplitOn line '/' = repo :: second :: rest →
        (pySplitWs second).length < 2 →
        pacmanHeaderRecord line next? = none) ∧
    (∀ line next?, pyStartsWith line "aur/" = false →
        aurHeaderRecord line next? = none) ∧
    (∀ line next?, (pySplitWs line).length < 2 →
        aurHeaderRecord line next? = none) ∧
    (∀ line next? p, pacmanHeaderRecord line next? = some p →
        p.description = descriptionFrom next?) ∧
    (∀ line next? p, aurHeaderRecord line next? = some p →
        p.description = descriptionFrom next?) ∧
    (∀ nl, descriptionFrom (some nl) =
        if pyStartsWith nl "    " then pyStrip nl else "") ∧
    (∀ output p, p ∈ parse_aur_search output → p.repo = "AUR") := by
  refine ⟨?_, ?_, ?_, ?_, ?_, ?_, ?_, ?_⟩
  · intro line next? hlen
    rcases hs : pySplitOn line '/' with _ | ⟨a, t2⟩
    · simp [pacmanHeaderRecord, hs]
    · rcases t2 with _ | ⟨b, t⟩
      · simp [pacmanHeaderRecord, hs]
      · rw [hs] at hlen; simp at hlen; omega
  · intro line next? repo second rest hs hlen
    rcases hw : pySplitWs second with _ | ⟨a, t2⟩
    · simp [pacmanHeaderRecord, hs, hw]
    · rcases t2 with _ | ⟨b, t⟩
      · simp [pacmanHeaderRecord, hs, hw]
      · rw [hw] at hlen; simp at hlen; omega
  · intro line next? hb
    simp [aurHeaderRecord, hb]
  · intro line next? hlen
    rcases hw : pySplitWs line with _ | ⟨a, t2⟩
    · simp [aurHeaderRecord, hw]
    · rcases t2 with _ | ⟨b, t⟩
      · simp [aurHeaderRecord, hw]
      · rw [hw] at hlen; simp at hlen; omega
  · intro line next? p hp
    unfold pacmanHeaderRecord at hp
    rcases hc : (line != "" && !(pyStartsWith line " ")) with _ | _ <;>
      rw [hc] at hp
    · simp at hp
    · rcases hs : pySplitOn line '/' with _ | ⟨a, _ | ⟨b, t⟩⟩ <;> rw [hs] at hp
      · simp at hp
      · simp at hp
      · simp only [if_true] at hp
        rcases hw : pySplitWs b with _ | ⟨nm, _ | ⟨ver, t2⟩⟩ <;>
          rw [hw] at hp <;> simp at hp
        subst hp
        rfl
  · intro line next? p hp
    unfold aurHeaderRecord at hp
    rcases hb : pyStartsWith line "aur/" with _ | _ <;> rw [hb] at hp
    · simp at hp
    · rcases hw : pySplitWs line with _ | ⟨a, _ | ⟨b, t⟩⟩ <;> rw [hw] at hp <;>
        simp at hp
      subst hp
      rfl
  · intro nl
    rfl
  · intro output p hp
    exact parseAurGo_repo _ p hp

/-- Witness for C10: concrete lines exercising each hypothesis of the
amended theorem. -/
theorem C10_parsers_witness :
    pacmanHeaderRecord "nosep 1.0" none = none ∧
    pacmanHeaderRecord "core/ 1.0" none = none ∧
    aurHeaderRecord "extra/foo 1.0" none = none ∧
    aurHeaderRecord "aur/foo" none = none ∧
    (PackageInfo.mk "foo" "1.0" "" "AUR" false).repo = "AUR" :=
  ⟨C10_parsers_partial_lines_amended.1 "nosep 1.0" none (by decide),
   C10_parsers_partial_lines_amended.2.1 "core/ 1.0" none "core" " 1.0" []
     (by decide) (by decide),
   C10_parsers_partial_lines_amended.2.2.1 "extra/foo 1.0" none (by decide),
   C10_parsers_partial_lines_amended.2.2.2.1 "aur/foo" none (by decide),
   C10_parsers_partial_lines_amended.2.2.2.2.2.2.2 "aur/foo 1.0"
     ⟨"foo", "1.0", "", "AUR", false⟩ (by decide)⟩

theorem find?_map_pres (f : PackageInfo → PackageInfo)
    (P : PackageInfo → Bool) (l : List PackageInfo)
    (h : ∀ r, P (f r) = P r) : (l.map f).find? P = (l.find? P).map f := by
  have hpf : (P ∘ f) = P := funext h
  rw [List.find?_map, hpf]

theorem firstNamed_mergeStep (acc : List PackageInfo) (p : PackageInfo)
    (n : String) :
    firstNamed n (mergeStep acc p) =
      if p.name == n then prefMerge (firstNamed n acc) p
      else firstNamed n acc := by
  rcases hf : acc.find? (fun q => q.name == p.name) with _ | q
  · unfold firstNamed mergeStep prefMerge
    simp only [hf]
    by_cases hn : (p.name == n) = true
    · have heq : p.name = n := by simpa using hn
      subst heq
      rw [List.find?_append, hf, if_pos (by simp)]
      simp
    · rw [List.find?_append, if_neg (by simpa using hn)]
      have h1 : [p].find? (fun q => q.name == n) = none := by
        simp only [List.find?_eq_none, List.mem_singleton]
        intro x hx
        subst hx
        simp only [hn, Bool.false_eq_true, not_false_eq_true]
      rw [h1]
      cases acc.find? (fun q => q.name == n) <;> rfl
  · have hq : (q.name == p.name) = true := by
      simpa using List.find?_some hf
    have hqeq : q.name = p.name := by simpa using hq
    by_cases hc : (pyLower p.repo != "aur" && pyLower q.repo == "aur") = true
    · by_cases hn : (p.name == n) = true
      · have heq : p.name = n := by simpa using hn
        subst heq
        unfold firstNamed mergeStep prefMerge
        simp only [hf, if_pos hc]
        rw [if_pos (by simp)]
        have hpres : ∀ r : PackageInfo,
            (((if r.name == p.name then p else r) : PackageInfo).name == p.name)
              = (r.name == p.name) := by
          intro r
          by_cases hr : (r.name == p.name) = true
          · simp [hr]
          · simp [hr]
        rw [find?_map_pres _ _ _ hpres, hf]
        simp only [Option.map_some']
        rw [if_pos hq]
      · have hpn : p.name ≠ n := by simpa using hn
        unfold firstNamed mergeStep
        simp only [hf, if_pos hc]
        rw [if_neg (by simpa using hn)]
        have hpres : ∀ r : PackageInfo,
            (((if r.name == p.name then p else r) : PackageInfo).name == n)
              = (r.name == n) := by
          intro r
          by_cases hr : (r.name == p.name) = true
          · have hre : r.name = p.name := by simpa using hr
            simp [hr, hre]
          · simp [hr]
        rw [find?_map_pres _ _ _ hpres]
        rcases hfn : acc.find? (fun r => r.name == n) with _ | r
        · rw [hfn]
          rfl
        · have hrn : r.name = n := by simpa using List.find?_some hfn
          have hrp : (r.name == p.name) = false := by
            simp only [beq_eq_false_iff_ne, ne_eq]
            rw [hrn]
            exact fun h => hpn h.symm
          rw [hfn]
          simp only [Option.map_some']
          rw [if_neg (by simp [hrp])]
    · by_cases hn : (p.name == n) = true
      · have heq : p.name = n := by simpa using hn
        subst heq
        unfold firstNamed mergeStep prefMerge
        simp only [hf, if_neg hc]
        rw [if_pos (by simp)]
      · unfold firstNamed mergeStep
        simp only [hf, if_neg hc]
        rw [if_neg (by simpa using hn)]

theorem firstNamed_foldl (ps : List PackageInfo) :
    ∀ (acc : List PackageInfo) (n : String),
      firstNamed n (ps.foldl mergeStep acc) =
        (ps.filter (fun p => p.name == n)).foldl prefMerge (firstNamed n acc) := by
  induction ps with
  | nil => intro acc n; simp
  | cons p ps ih =>
    intro acc n
    rw [List.foldl_cons, ih, List.filter_cons]
    by_cases hn : (p.name == n) = true
    · rw [if_pos hn, List.foldl_cons, firstNamed_mergeStep, if_pos hn]
    · rw [if_neg hn, firstNamed_mergeStep, if_neg (by simpa using hn)]

theorem firstNamed_dedupMerge (ps : List PackageInfo) (n : String) :
    firstNamed n (dedupMerge ps) =
      (ps.filter (fun p => p.name == n)).foldl prefMerge none := by
  unfold dedupMerge
  rw [firstNamed_foldl]
  rfl

theorem foldl_prefMerge_keeps_nonaur (r : PackageInfo)
    (h : pyLower r.repo ≠ "aur") (l : List PackageInfo) :
    l.foldl prefMerge (some r) = some r := by
  induction l with
  | nil => rfl
  | cons p t ih =>
    rw [List.foldl_cons]
    have hstep : prefMerge (some r) p = some r := by
      simp [prefMerge, h]
    rw [hstep]
    exact ih

theorem foldl_prefMerge_allaur (l : List PackageInfo)
    (hl : ∀ p ∈ l, pyLower p.repo = "aur") (r : PackageInfo) :
    l.foldl prefMerge (some r) = some r := by
  induction l with
  | nil => rfl
  | cons p t ih =>
    rw [List.foldl_cons]
    have hp : pyLower p.repo = "aur" := hl p (by simp)
    have hstep : prefMerge (some r) p = some r := by
      simp [prefMerge, hp]
    rw [hstep]
    exact ih fun q hq => hl q (by simp [hq])

theorem find?_eq_head?_filter (P : PackageInfo → Bool) (l : List PackageInfo) :
    l.find? P = (l.filter P).head? := by
  induction l with
  | nil => rfl
  | cons a t ih =>
    by_cases ha : P a = true
    · rw [List.find?_cons_of_pos _ ha, List.filter_cons, if_pos ha]
      rfl
    · rw [List.find?_cons_of_neg _ (by simpa using ha), List.filter_cons,
        if_neg ha]
      exact ih

theorem mergeStep_nodupNames (acc : List PackageInfo) (p : PackageInfo)
    (h : (queueNames acc).Nodup) : (queueNames (mergeStep acc p)).Nodup := by
  rcases hf : acc.find? (fun q => q.name == p.name) with _ | q
  · unfold mergeStep
    simp only [hf]
    rw [List.find?_eq_none] at hf
    unfold queueNames
    rw [List.map_append]
    refine List.Nodup.append h (by simp) ?_
    intro a ha hb
    simp only [List.map_cons, List.map_nil, List.mem_singleton] at hb
    subst hb
    rcases List.mem_map.mp ha with ⟨r, hr, hname⟩
    exact hf r hr (by simp [hname])
  · unfold mergeStep
    simp only [hf]
    by_cases hc : (pyLower p.repo != "aur" && pyLower q.repo == "aur") = true
    · rw [if_pos hc]
      have hnames : queueNames
          (acc.map fun r => if r.name == p.name then p else r) =
          queueNames acc := by
        unfold queueNames
        rw [List.map_map]
        apply List.map_congr_left
        intro r _
        by_cases hr : (r.name == p.name) = true
        · have hre : r.name = p.name := by simpa using hr
          simp [Function.comp, hr, hre]
        · simp [Function.comp, hr]
      rw [hnames]
      exact h
    · rw [if_neg hc]
      exact h

theorem dedupMerge_nodupNames (ps : List PackageInfo) :
    (queueNames (dedupMerge ps)).Nodup := by
  unfold dedupMerge
  have main : ∀ acc, (queueNames acc).Nodup →
      (queueNames (ps.foldl mergeStep acc)).Nodup := by
    induction ps with
    | nil => intro acc h; simpa using h
    | cons p t ih =>
      intro acc h
      exact ih (mergeStep acc p) (mergeStep_nodupNames acc p h)
  exact main [] (by simp [queueNames])

theorem countP_name_le_one (l : List PackageInfo)
    (h : (queueNames l).Nodup) (n : String) :
    l.countP (fun p => p.name == n) ≤ 1 := by
  induction l with
  | nil => simp
  | cons a t ih =>
    have hnames : a.name ∉ queueNames t ∧ (queueNames t).Nodup := by
      simpa [queueNames] using h
    rw [List.countP_cons]
    by_cases ha : (a.name == n) = true
    · have hz : t.countP (fun p => p.name == n) = 0 := by
        rw [List.countP_eq_zero]
        intro r hr hrn
        have h1 : r.name = n := by simpa using hrn
        have h2 : a.name = n := by simpa using ha
        exact hnames.1 (by
          rw [h2, ← h1]
          exact List.mem_map.mpr ⟨r, hr, rfl⟩)
      simp [ha, hz]
    · have ha0 : ((fun p => p.name == n) a : Bool) = false := by
        simpa using ha
      simp only [ha0, Bool.false_eq_true, if_false]
      have := ih hnames.2
      omega

/-- C5 counterexample: when `pacman -Ss` output itself names a repository
`aur` (the header `"aur/x 1.0"`), the duplicate-elimination pass keeps
the alternate-source record when the AUR list is concatenated first: the
merged list holds the AUR record (version 2.0), not the primary-source
record — so the preference does not hold regardless of concatenation
order for every pair of parsed lists. -/
theorem C5_counterexample :
    parse_pacman_search "aur/x 1.0" = [⟨"x", "1.0", "", "aur", false⟩] ∧
    parse_aur_search "aur/x 2.0" = [⟨"x", "2.0", "", "AUR", false⟩] ∧
    dedupMerge (parse_aur_search "aur/x 2.0" ++ parse_pacman_search "aur/x 1.0") =
      [⟨"x", "2.0", "", "AUR", false⟩] ∧
    (⟨"x", "2.0", "", "AUR", false⟩ : PackageInfo) ∉
      parse_pacman_search "aur/x 1.0" := by decide

/-- C5 (amended): provided no primary-source record has repo equal to
`aur` case-insensitively (true of genuine pacman repositories), a name
appearing in both parsed lists survives deduplication as exactly one
record — the first primary-source record with that name — whichever of
the two concatenation orders is used. -/
theorem C5_dedup_prefers_primary_amended (s1 s2 n : String)
    (hP : ∀ p ∈ parse_pacman_search s1, pyLower p.repo ≠ "aur")
    (hPn : ∃ p ∈ parse_pacman_search s1, p.name = n)
    (hAn : ∃ a ∈ parse_aur_search s2, a.name = n) :
    firstNamed n (dedupMerge (parse_pacman_search s1 ++ parse_aur_search s2)) =
        firstNamed n (parse_pacman_search s1) ∧
    firstNamed n (dedupMerge (parse_aur_search s2 ++ parse_pacman_search s1)) =
        firstNamed n (parse_pacman_search s1) ∧
    (dedupMerge (parse_pacman_search s1 ++ parse_aur_search s2)).countP
        (fun p => p.name == n) = 1 ∧
    (dedupMerge (parse_aur_search s2 ++ parse_pacman_search s1)).countP
        (fun p => p.name == n) = 1 ∧
    ∃ r, firstNamed n (parse_pacman_search s1) = some r ∧
      r ∈ parse_pacman_search s1 ∧ r.name = n := by
  set P := parse_pacman_search s1 with hPdef
  set A := parse_aur_search s2 with hAdef
  have hA : ∀ a ∈ A, pyLower a.repo = "aur" := by
    intro a ha
    have hrepo : a.repo = "AUR" :=
      parseAurGo_repo (pySplitOn (pyStrip s2) '\n') a ha
    rw [hrepo]
    decide
  obtain ⟨p0, hp0P, hp0n⟩ := hPn
  obtain ⟨a0, ha0A, ha0n⟩ := hAn
  rcases hfp : P.filter (fun p => p.name == n) with _ | ⟨r0, fp'⟩
  · have hmem : p0 ∈ P.filter (fun p => p.name == n) :=
      List.mem_filter.mpr ⟨hp0P, by simp [hp0n]⟩
    rw [hfp] at hmem
    simp at hmem
  rcases hfa : A.filter (fun p => p.name == n) with _ | ⟨s0, fa'⟩
  · have hmem : a0 ∈ A.filter (fun p => p.name == n) :=
      List.mem_filter.mpr ⟨ha0A, by simp [ha0n]⟩
    rw [hfa] at hmem
    simp at hmem
  have hr0mem : r0 ∈ P ∧ (r0.name == n) = true := by
    have : r0 ∈ P.filter (fun p => p.name == n) := by rw [hfp]; simp
    exact ⟨(List.mem_filter.mp this).1, (List.mem_filter.mp this).2⟩
  have hr0aur : pyLower r0.repo ≠ "aur" := hP r0 hr0mem.1
  have hs0mem : s0 ∈ A ∧ (s0.name == n) = true := by
    have : s0 ∈ A.filter (fun p => p.name == n) := by rw [hfa]; simp
    exact ⟨(List.mem_filter.mp this).1, (List.mem_filter.mp this).2⟩
  have hs0aur : pyLower s0.repo = "aur" := hA s0 hs0mem.1
  have hfa'aur : ∀ p ∈ fa', pyLower p.repo = "aur" := by
    intro p hp
    have : p ∈ A.filter (fun q => q.name == n) := by rw [hfa]; simp [hp]
    exact hA p (List.mem_filter.mp this).1
  have hfstP : firstNamed n P = some r0 := by
    unfold firstNamed
    rw [find?_eq_head?_filter, hfp]
    rfl
  have h0r : prefMerge none r0 = some r0 := rfl
  have h0s : prefMerge none s0 = some s0 := rfl
  have hcond : (pyLower r0.repo != "aur" && pyLower s0.repo == "aur") = true := by
    simp [hr0aur, hs0aur]
  have hpm : prefMerge (some s0) r0 = some r0 := by
    simp [prefMerge, hcond]
  have c1 : firstNamed n (dedupMerge (P ++ A)) = some r0 := by
    rw [firstNamed_dedupMerge, List.filter_append, hfp, hfa]
    rw [List.cons_append, List.foldl_cons, h0r, List.foldl_append,
      foldl_prefMerge_keeps_nonaur r0 hr0aur fp',
      foldl_prefMerge_keeps_nonaur r0 hr0aur (s0 :: fa')]
  have c3 : firstNamed n (dedupMerge (A ++ P)) = some r0 := by
    rw [firstNamed_dedupMerge, List.filter_append, hfp, hfa]
    rw [List.cons_append, List.foldl_cons, h0s, List.foldl_append,
      foldl_prefMerge_allaur fa' hfa'aur s0, List.foldl_cons, hpm,
      foldl_prefMerge_keeps_nonaur r0 hr0aur fp']
  have hmem1 : r0 ∈ dedupMerge (P ++ A) := List.mem_of_find?_eq_some c1
  have hmem3 : r0 ∈ dedupMerge (A ++ P) := List.mem_of_find?_eq_some c3
  have hcount1 : (dedupMerge (P ++ A)).countP (fun p => p.name == n) = 1 := by
    have hle := countP_name_le_one _ (dedupMerge_nodupNames (P ++ A)) n
    have hge : 0 < (dedupMerge (P ++ A)).countP (fun p => p.name == n) :=
      List.countP_pos_iff.mpr ⟨r0, hmem1, hr0mem.2⟩
    omega
  have hcount3 : (dedupMerge (A ++ P)).countP (fun p => p.name == n) = 1 := by
    have hle := countP_name_le_one _ (dedupMerge_nodupNames (A ++ P)) n
    have hge : 0 < (dedupMerge (A ++ P)).countP (fun p => p.name == n) :=
      List.countP_pos_iff.mpr ⟨r0, hmem3, hr0mem.2⟩
    omega
  exact ⟨c1.trans hfstP.symm, c3.trans hfstP.symm, hcount1, hcount3,
    r0, hfstP, hr0mem.1, by simpa using hr0mem.2⟩

/-- Witness for C5: a genuine primary repository header and an AUR header
for the same name, merged in both orders. -/
theorem C5_dedup_witness :
    firstNamed "x" (dedupMerge
        (parse_aur_search "aur/x 2.0" ++ parse_pacman_search "extra/x 1.0")) =
      firstNamed "x" (parse_pacman_search "extra/x 1.0") ∧
    (dedupMerge (parse_aur_search "aur/x 2.0" ++
        parse_pacman_search "extra/x 1.0")).countP (fun p => p.name == "x") = 1 :=
  ⟨(C5_dedup_prefers_primary_amended "extra/x 1.0" "aur/x 2.0" "x"
      (by decide) (by decide) (by decide)).2.1,
   (C5_dedup_prefers_primary_amended "extra/x 1.0" "aur/x 2.0" "x"
      (by decide) (by decide) (by decide)).2.2.2.1⟩

/-- C6: for the query `firefox`, a record named exactly `firefox` with
`installed = false` and a primary (non-AUR) repository scores
`1000 + 0 + 30 + max 0 (20 - 7 / 2) = 1047`, strictly more than any
record named `firefox-esr` scores for the same query whatever its
description, installed flag or repository; with the descending
stable sort on scores the exact match therefore ranks first. -/
theorem C6_exact_match_outranks_prefix_match
    (ver desc repo : String) (esr : PackageInfo)
    (hrepo : pyLower repo ≠ "aur") (hname : esr.name = "firefox-esr") :
    calculate_relevance_score ⟨"firefox", ver, desc, repo, false⟩ "firefox"
        = 1000 + 0 + 30 + max 0 (20 - (("firefox" : String).length : Int) / 2) ∧
    calculate_relevance_score ⟨"firefox", ver, desc, repo, false⟩ "firefox"
        = 1047 ∧
    calculate_relevance_score esr "firefox" <
      calculate_relevance_score ⟨"firefox", ver, desc, repo, false⟩ "firefox" := by
  have hff : calculate_relevance_score ⟨"firefox", ver, desc, repo, false⟩
      "firefox" = 1047 := by
    have ht : relTier (pyLower "firefox") (pyLower "firefox")
        (if desc != "" then pyLower desc else "") = 1000 := by
      unfold relTier
      rw [if_pos (by decide)]
    have hbne : (pyLower repo != "aur") = true := by simpa using hrepo
    show relTier (pyLower "firefox") (pyLower "firefox")
        (if desc != "" then pyLower desc else "")
      + (if (false : Bool) then 50 else 0)
      + (if pyLower repo != "aur" then 30 else 0)
      + max 0 (20 - (("firefox" : String).length : Int) / 2)
      - (if ("firefox" : String).length > 20 then 20 else 0) = 1047
    rw [ht, if_pos hbne]
    decide
  refine ⟨?_, hff, ?_⟩
  · rw [hff]
    decide
  · rw [hff]
    have htier : ∀ d, relTier (pyLower "firefox-esr") (pyLower "firefox") d
        = 800 := by
      intro d
      unfold relTier
      rw [if_neg (by decide), if_pos (by decide)]
    unfold calculate_relevance_score
    rw [hname, htier]
    by_cases hi : esr.installed = true
    · rw [if_pos hi]
      by_cases hr2 : (pyLower esr.repo != "aur") = true
      · rw [if_pos hr2]
        decide
      · rw [if_neg hr2]
        decide
    · rw [if_neg hi]
      by_cases hr2 : (pyLower esr.repo != "aur") = true
      · rw [if_pos hr2]
        decide
      · rw [if_neg hr2]
        decide

/-- Witness for C6: concrete records for both names. -/
theorem C6_exact_match_witness :
    pyLower "extra" ≠ "aur" ∧
    calculate_relevance_score ⟨"firefox-esr", "1", "", "extra", true⟩ "firefox" <
      calculate_relevance_score ⟨"firefox", "1", "", "extra", false⟩ "firefox" :=
  ⟨by decide,
   (C6_exact_match_outranks_prefix_match "1" "" "extra"
      ⟨"firefox-esr", "1", "", "extra", true⟩ (by decide) rfl).2.2⟩

theorem classifyRest_totalLines (st : LoopState) (l : TimedLine) :
    (classifyRest st l).2.totalLines = st.totalLines + 1 := rfl

theorem classifyRest_sizePair (st : LoopState) (l : TimedLine)
    (cur tot : String) (csz tsz : ℚ)
    (h1 : searchPercent l.text.toList = none)
    (h2 : searchSizePair l.text.toList = some (cur, tot))
    (h3 : parse_size cur = some csz) (h4 : parse_size tot = some tsz)
    (h5 : 0 < tsz) :
    classifyRest st l =
      (some ⟨0.1 + csz / tsz * 0.3, "Downloading...",
        "Downloaded " ++ cur ++ " of " ++ tot, RuleTag.sizePair⟩,
       ⟨st.totalLines + 1, l.time, pyStrip l.text⟩) := by
  unfold classifyRest classifyEv
  simp only [h1, h2, h3, h4, if_pos h5, if_true]

theorem classifyRest_phase (st : LoopState) (l : TimedLine) (f : ℚ)
    (lab : String)
    (h1 : searchPercent l.text.toList = none)
    (h2 : searchSizePair l.text.toList = none)
    (h3 : findPhase (pyLower l.text) = some (f, lab)) :
    classifyRest st l =
      (some ⟨f, lab, pyStrip l.text, RuleTag.phase⟩,
       ⟨st.totalLines + 1, l.time, pyStrip l.text⟩) := by
  unfold classifyRest classifyEv
  simp only [h1, h2, h3, if_true]

theorem classifyRest_stall (st : LoopState) (l : TimedLine)
    (h1 : searchPercent l.text.toList = none)
    (h2 : searchSizePair l.text.toList = none)
    (h3 : findPhase (pyLower l.text) = none)
    (h4 : strContains (pyLower l.text) ":: proceed with installation?" = false)
    (h5 : 2 < l.time - st.lastProgressTime) :
    classifyRest st l =
      (some ⟨stallFrac (st.totalLines + 1), "Processing...", pyStrip l.text,
        RuleTag.stall⟩,
       ⟨st.totalLines + 1, l.time, pyStrip l.text⟩) := by
  unfold classifyRest classifyEv
  simp only [h1, h2, h3, h4, Bool.false_eq_true, if_false, if_pos h5, if_true]

theorem runLines_cons_auth (st : LoopState) (l : TimedLine)
    (rest : List TimedLine) (h : hasAuthPhrase l.text = true) :
    runLines st (l :: rest) =
      ⟨[authFailEvent], 1, true,
        ⟨st.totalLines + 1, st.lastProgressTime, pyStrip l.text⟩⟩ := by
  unfold runLines
  rw [if_pos h]

theorem runLines_cons_noauth (st : LoopState) (l : TimedLine)
    (rest : List TimedLine) (h : hasAuthPhrase l.text = false) :
    runLines st (l :: rest) =
      ⟨(classifyRest st l).1.toList ++
          (runLines (classifyRest st l).2 rest).events,
       (runLines (classifyRest st l).2 rest).consumed + 1,
       (runLines (classifyRest st l).2 rest).authBroke,
       (runLines (classifyRest st l).2 rest).finalState⟩ := by
  have hstep : runLines st (l :: rest) =
      if hasAuthPhrase l.text then
        ⟨[authFailEvent], 1, true,
          ⟨st.totalLines + 1, st.lastProgressTime, pyStrip l.text⟩⟩
      else
        ⟨(classifyRest st l).1.toList ++
            (runLines (classifyRest st l).2 rest).events,
         (runLines (classifyRest st l).2 rest).consumed + 1,
         (runLines (classifyRest st l).2 rest).authBroke,
         (runLines (classifyRest st l).2 rest).finalState⟩ := rfl
  rw [hstep, if_neg (by simp [h])]

/-- C7: classifying the line `"1.5MiB/10MiB"` parses the two sizes to
`1.5 * 1024 ^ 2` and `10 * 1024 ^ 2` bytes, a downloaded ratio of
`0.15`, and the single emitted fraction is `0.1 + 0.15 * 0.3 = 0.145`. -/
theorem C7_byte_size_pair_fraction :
    parse_size "1.5MiB" = some (1.5 * 1024 ^ 2) ∧
    parse_size "10MiB" = some (10 * 1024 ^ 2) ∧
    ((1.5 * 1024 ^ 2 : ℚ) / (10 * 1024 ^ 2)) = 0.15 ∧
    ((runLines ⟨0, 0, ""⟩ [⟨"1.5MiB/10MiB", 0⟩]).events.map
        (fun e => e.fraction)) = [0.145] ∧
    (0.145 : ℚ) = 0.1 + 0.15 * 0.3 := by
  have hps1 : parse_size "1.5MiB" = some (1.5 * 1024 ^ 2) := by
    rw [show parse_size "1.5MiB"
        = some ((((1 : Nat) : ℚ) + ((5 : Nat) : ℚ) / 10 ^ 1) * (1024 * 1024))
      from rfl]
    simp only [Option.some.injEq]
    norm_num
  have hps2 : parse_size "10MiB" = some (10 * 1024 ^ 2) := by
    rw [show parse_size "10MiB" = some (((10 : Nat) : ℚ) * (1024 * 1024))
      from rfl]
    simp only [Option.some.injEq]
    norm_num
  have hrun : (runLines ⟨0, 0, ""⟩ [⟨"1.5MiB/10MiB", 0⟩]).events
      = [⟨0.1 + (1.5 * 1024 ^ 2) / (10 * 1024 ^ 2) * 0.3, "Downloading...",
          "Downloaded " ++ "1.5MiB" ++ " of " ++ "10MiB", RuleTag.sizePair⟩] := by
    rw [runLines_cons_noauth _ _ _ (by decide),
      classifyRest_sizePair _ _ "1.5MiB" "10MiB" _ _ (by decide) (by decide)
        hps1 hps2 (by norm_num)]
    rfl
  refine ⟨hps1, hps2, by norm_num, ?_, by norm_num⟩
  rw [hrun]
  simp only [List.map_cons, List.map_nil]
  norm_num

/-- C8: feeding the ten phase-header lines in canonical order yields the
checkpoint sequence `0.05, 0.1, 0.15, 0.2, 0.25, 0.3, 0.35, 0.4, 0.45,
0.9`, which never decreases, starts at `0.05` and ends at `0.9`. -/
theorem C8_phase_headers_monotone :
    ((runLines ⟨0, 0, ""⟩ phaseLines).events.map (fun e => e.fraction))
      = [0.05, 0.1, 0.15, 0.2, 0.25, 0.3, 0.35, 0.4, 0.45, 0.9] ∧
    List.Chain' (· ≤ ·)
      ((runLines ⟨0, 0, ""⟩ phaseLines).events.map (fun e => e.fraction)) ∧
    ((runLines ⟨0, 0, ""⟩ phaseLines).events.map
        (fun e => e.fraction)).head? = some 0.05 ∧
    ((runLines ⟨0, 0, ""⟩ phaseLines).events.map
        (fun e => e.fraction)).getLast? = some 0.9 := by
  have h1 : ((runLines ⟨0, 0, ""⟩ phaseLines).events.map (fun e => e.fraction))
      = [0.05, 0.1, 0.15, 0.2, 0.25, 0.3, 0.35, 0.4, 0.45, 0.9] := rfl
  refine ⟨h1, ?_, ?_, ?_⟩
  · rw [h1]
    norm_num [List.chain'_cons, List.chain'_singleton]
  · rw [h1]
    rfl
  · rw [h1]
    rfl

theorem stallFrac_le (k : Nat) : stallFrac k ≤ 0.95 := min_le_right _ _

theorem stallFrac_mono {k m : Nat} (h : k ≤ m) :
    stallFrac k ≤ stallFrac m := by
  have hc : (k : ℚ) ≤ (m : ℚ) := by exact_mod_cast h
  have hmul : (k : ℚ) * 0.001 ≤ (m : ℚ) * 0.001 := by nlinarith
  exact min_le_min (by linarith) le_rfl

theorem classifyEv_stall_frac (st : LoopState) (l : TimedLine) (e : Ev)
    (h : (classifyEv st l).1 = some e) (hrule : e.rule = RuleTag.stall) :
    e.fraction = stallFrac (st.totalLines + 1) := by
  unfold classifyEv at h
  rcases hp : searchPercent l.text.toList with _ | n
  · simp only [hp] at h
    rcases hs : searchSizePair l.text.toList with _ | ⟨cur, tot⟩
    · simp only [hs] at h
      rcases hf : findPhase (pyLower l.text) with _ | fl
      · simp only [hf] at h
        by_cases hpr :
            strContains (pyLower l.text) ":: proceed with installation?" = true
        · rw [if_pos hpr] at h
          simp at h
        · rw [if_neg hpr] at h
          by_cases hst : 2 < l.time - st.lastProgressTime
          · rw [if_pos hst] at h
            simp only [Option.some.injEq] at h
            rw [← h]
          · rw [if_neg hst] at h
            simp at h
      · simp only [hf] at h
        simp only [Option.some.injEq] at h
        rw [← h] at hrule
        simp at hrule
    · simp only [hs] at h
      rcases hc : parse_size cur with _ | csz
      · simp only [hc] at h
        simp at h
      · rcases ht : parse_size tot with _ | tsz
        · simp only [hc, ht] at h
          simp at h
        · simp only [hc, ht] at h
          by_cases h0 : 0 < tsz
          · rw [if_pos h0] at h
            simp only [Option.some.injEq] at h
            rw [← h] at hrule
            simp at hrule
          · rw [if_neg h0] at h
            simp at h
  · simp only [hp] at h
    by_cases h1 : strContains (pyLower l.text) "downloading" = true
    · rw [if_pos h1] at h
      simp only [Option.some.injEq] at h
      rw [← h] at hrule
      simp at hrule
    · rw [if_neg h1] at h
      by_cases h2 : strContains (pyLower l.text) "installing" = true
      · rw [if_pos h2] at h
        simp only [Option.some.injEq] at h
        rw [← h] at hrule
        simp at hrule
      · rw [if_neg h2] at h
        simp only [Option.some.injEq] at h
        rw [← h] at hrule
        simp at hrule

theorem classifyRest_quiet (st : LoopState) (l : TimedLine)
    (h1 : searchPercent l.text.toList = none)
    (h2 : searchSizePair l.text.toList = none)
    (h3 : findPhase (pyLower l.text) = none)
    (h4 : strContains (pyLower l.text) ":: proceed with installation?" = false)
    (h5 : ¬(2 < l.time - st.lastProgressTime)) :
    classifyRest st l =
      (none, ⟨st.totalLines + 1, st.lastProgressTime, pyStrip l.text⟩) := by
  unfold classifyRest classifyEv
  simp only [h1, h2, h3, h4, Bool.false_eq_true, if_false, if_neg h5]

theorem runLines_noauth_noBreak (A : List TimedLine) :
    ∀ st : LoopState, (∀ l ∈ A, hasAuthPhrase l.text = false) →
      (runLines st A).authBroke = false := by
  induction A with
  | nil => intro st _; rfl
  | cons l A ih =>
    intro st hA
    rw [runLines_cons_noauth _ _ _ (hA l (by simp))]
    exact ih _ fun x hx => hA x (by simp [hx])

theorem runLines_noauth_consumed (A : List TimedLine) :
    ∀ st : LoopState, (∀ l ∈ A, hasAuthPhrase l.text = false) →
      (runLines st A).consumed = A.length := by
  induction A with
  | nil => intro st _; rfl
  | cons l A ih =>
    intro st hA
    rw [runLines_cons_noauth _ _ _ (hA l (by simp))]
    have := ih (classifyRest st l).2 fun x hx => hA x (by simp [hx])
    simp [this]

theorem runLines_append (A : List TimedLine) :
    ∀ (st : LoopState) (B : List TimedLine),
      (runLines st A).authBroke = false →
      runLines st (A ++ B) =
        ⟨(runLines st A).events ++
            (runLines (runLines st A).finalState B).events,
         (runLines st A).consumed +
            (runLines (runLines st A).finalState B).consumed,
         (runLines (runLines st A).finalState B).authBroke,
         (runLines (runLines st A).finalState B).finalState⟩ := by
  induction A with
  | nil =>
    intro st B h
    show runLines st B = _
    simp [runLines]
  | cons l A ih =>
    intro st B h
    by_cases ha : hasAuthPhrase l.text = true
    · rw [runLines_cons_auth _ _ _ ha] at h
      simp at h
    · have ha' : hasAuthPhrase l.text = false := by simpa using ha
      rw [runLines_cons_noauth _ _ _ ha'] at h
      simp only [] at h
      rw [List.cons_append, runLines_cons_noauth _ _ _ ha',
        runLines_cons_noauth _ _ _ ha', ih (classifyRest st l).2 B h]
      simp only [LoopResult.mk.injEq, List.append_assoc, true_and, and_true]
      omega

theorem runLines_stall_invariant (lines : List TimedLine) :
    ∀ st : LoopState,
      List.Chain' (· ≤ ·) (stallFractions (runLines st lines)) ∧
      ∀ q ∈ stallFractions (runLines st lines),
        stallFrac st.totalLines ≤ q ∧ q ≤ 0.95 := by
  induction lines with
  | nil =>
    intro st
    constructor
    · simp [runLines, stallFractions]
    · intro q hq
      simp [runLines, stallFractions] at hq
  | cons l rest ih =>
    intro st
    by_cases ha : hasAuthPhrase l.text = true
    · rw [runLines_cons_auth _ _ _ ha]
      constructor
      · simp [stallFractions, authFailEvent]
      · intro q hq
        simp [stallFractions, authFailEvent] at hq
    · have ha' : hasAuthPhrase l.text = false := by simpa using ha
      rw [runLines_cons_noauth _ _ _ ha']
      obtain ⟨ihc, ihb⟩ := ih (classifyRest st l).2
      have htot : (classifyRest st l).2.totalLines = st.totalLines + 1 := rfl
      rw [htot] at ihb
      simp only [stallFractions] at ihc ihb ⊢
      rcases hc1 : (classifyRest st l).1 with _ | e
      · simp only [hc1, Option.toList_none, List.nil_append]
        exact ⟨ihc, fun q hq =>
          ⟨le_trans (stallFrac_mono (Nat.le_succ _)) (ihb q hq).1,
           (ihb q hq).2⟩⟩
      · simp only [hc1, Option.toList_some, List.singleton_append,
          List.filter_cons]
        by_cases hrule : (e.rule == RuleTag.stall) = true
        · have hruleEq : e.rule = RuleTag.stall := by simpa using hrule
          have hfr : e.fraction = stallFrac (st.totalLines + 1) :=
            classifyEv_stall_frac st l e hc1 hruleEq
          rw [if_pos hrule]
          simp only [List.map_cons]
          constructor
          · rw [List.chain'_cons']
            constructor
            · intro b hb
              have hbmem := List.mem_of_mem_head? hb
              rw [hfr]
              exact (ihb b hbmem).1
            · exact ihc
          · intro q hq
            rcases List.mem_cons.mp hq with rfl | hq'
            · refine ⟨?_, ?_⟩
              · rw [hfr]
                exact stallFrac_mono (Nat.le_succ _)
              · rw [hfr]
                exact stallFrac_le _
            · exact ⟨le_trans (stallFrac_mono (Nat.le_succ _)) (ihb q hq').1,
                (ihb q hq').2⟩
        · rw [if_neg hrule]
          exact ⟨ihc, fun q hq =>
            ⟨le_trans (stallFrac_mono (Nat.le_succ _)) (ihb q hq).1,
             (ihb q hq).2⟩⟩

/-- C9 (amended): a stall-fallback emission is `min (0.1 + 0.001 * n)
0.95` for `n` the number of lines read so far: it never exceeds `0.95`
(reaching it exactly once 850 lines have been read), and successive
stall-fallback emissions never decrease — but, per the counterexample, a
stall emission can fall below a fraction previously emitted by another
rule, and the bound `0.95` is attained rather than strict. -/
theorem C9_stall_fallback_amended (t0 : ℚ) (lines : List TimedLine) :
    List.Chain' (· ≤ ·) (stallFractions (runLines ⟨0, t0, ""⟩ lines)) ∧
    ∀ q ∈ stallFractions (runLines ⟨0, t0, ""⟩ lines), q ≤ 0.95 := by
  obtain ⟨hch, hb⟩ := runLines_stall_invariant lines ⟨0, t0, ""⟩
  exact ⟨hch, fun q hq => (hb q hq).2⟩

theorem runLines_quiet (m : Nat) : ∀ (n : Nat) (s : String),
    runLines ⟨n, 0, s⟩ (List.replicate m ⟨"x", 0⟩) =
      ⟨[], m, false, ⟨n + m, 0, if m = 0 then s else "x"⟩⟩ := by
  induction m with
  | zero =>
    intro n s
    simp [runLines]
  | succ m ihm =>
    intro n s
    rw [List.replicate_succ, runLines_cons_noauth _ _ _ (by decide)]
    rw [show classifyRest ⟨n, 0, s⟩ (⟨"x", 0⟩ : TimedLine)
        = (none, ⟨n + 1, 0, "x"⟩) from by
      rw [classifyRest_quiet ⟨n, 0, s⟩ ⟨"x", 0⟩ (by decide) (by decide) rfl
        (by decide) (by show ¬((2 : ℚ) < 0 - 0); norm_num)]
      rfl]
    dsimp only
    rw [ihm (n + 1) "x"]
    have hL : n + 1 + m = n + (m + 1) := by omega
    have hS : (if m = 0 then "x" else "x") = (if m + 1 = 0 then s else "x") := by
      simp
    simp only [Option.toList_none, List.nil_append]
    rw [hL, hS]

/-- C9 counterexample: first, after the `0.9` post-transaction-hooks
checkpoint a stall-fallback line emits `stallFrac 2 = 0.102 < 0.9`,
decreasing the previously reported fraction; second, after 850 lines the
stall fallback emits exactly `0.95`, not strictly below it. -/
theorem C9_counterexample :
    ((runLines ⟨0, 0, ""⟩
        [⟨"running post-transaction hooks", 0⟩, ⟨"x", 3⟩]).events.map
        (fun e => (e.rule, e.fraction)))
      = [(RuleTag.phase, 0.9), (RuleTag.stall, stallFrac 2)] ∧
    stallFrac 2 < 0.9 ∧
    stallFrac 850 ∈ stallFractions (runLines ⟨0, 0, ""⟩
        (List.replicate 849 ⟨"x", 0⟩ ++ [⟨"x", 3⟩])) ∧
    stallFrac 850 = 0.95 := by
  have hs1 : runLines ⟨1, 0, "running post-transaction hooks"⟩ [⟨"x", 3⟩]
      = ⟨[⟨stallFrac 2, "Processing...", "x", RuleTag.stall⟩], 1, false,
         ⟨2, 3, "x"⟩⟩ := by
    rw [runLines_cons_noauth _ _ _ (by decide)]
    rw [show classifyRest ⟨1, 0, "running post-transaction hooks"⟩
        (⟨"x", 3⟩ : TimedLine)
        = (some ⟨stallFrac 2, "Processing...", "x", RuleTag.stall⟩,
           ⟨2, 3, "x"⟩) from by
      rw [classifyRest_stall ⟨1, 0, "running post-transaction hooks"⟩
        ⟨"x", 3⟩ (by decide) (by decide) rfl (by decide)
        (by show (2 : ℚ) < 3 - 0; norm_num)]
      rfl]
    rfl
  have hrun2 : (runLines ⟨0, 0, ""⟩
      [⟨"running post-transaction hooks", 0⟩, ⟨"x", 3⟩]).events
      = [⟨0.9, "Running post-transaction hooks...",
          "running post-transaction hooks", RuleTag.phase⟩,
         ⟨stallFrac 2, "Processing...", "x", RuleTag.stall⟩] := by
    rw [runLines_cons_noauth _ _ _ (by decide)]
    rw [show classifyRest ⟨0, 0, ""⟩
        (⟨"running post-transaction hooks", 0⟩ : TimedLine)
        = (some ⟨0.9, "Running post-transaction hooks...",
            "running post-transaction hooks", RuleTag.phase⟩,
           ⟨1, 0, "running post-transaction hooks"⟩) from by
      rw [classifyRest_phase ⟨0, 0, ""⟩ ⟨"running post-transaction hooks", 0⟩
        0.9 "Running post-transaction hooks..." (by decide) (by decide) rfl]
      rfl]
    dsimp only
    rw [hs1]
    rfl
  have hq : runLines ⟨0, 0, ""⟩ (List.replicate 849 ⟨"x", 0⟩)
      = ⟨[], 849, false, ⟨849, 0, "x"⟩⟩ := by
    have h := runLines_quiet 849 0 ""
    have h2 : (⟨0 + 849, 0, if 849 = 0 then "" else "x"⟩ : LoopState)
        = ⟨849, 0, "x"⟩ := by norm_num
    rw [h2] at h
    exact h
  have hb : runLines ⟨849, 0, "x"⟩ [⟨"x", 3⟩]
      = ⟨[⟨stallFrac 850, "Processing...", "x", RuleTag.stall⟩], 1, false,
         ⟨850, 3, "x"⟩⟩ := by
    rw [runLines_cons_noauth _ _ _ (by decide)]
    rw [show classifyRest ⟨849, 0, "x"⟩ (⟨"x", 3⟩ : TimedLine)
        = (some ⟨stallFrac 850, "Processing...", "x", RuleTag.stall⟩,
           ⟨850, 3, "x"⟩) from by
      rw [classifyRest_stall ⟨849, 0, "x"⟩ ⟨"x", 3⟩ (by decide) (by decide)
        rfl (by decide) (by show (2 : ℚ) < 3 - 0; norm_num)]
      rfl]
    rfl
  have hrunB : stallFractions (runLines ⟨0, 0, ""⟩
      (List.replicate 849 ⟨"x", 0⟩ ++ [⟨"x", 3⟩])) = [stallFrac 850] := by
    rw [runLines_append _ _ _ (by rw [hq]), hq]
    dsimp only
    rw [hb]
    rfl
  refine ⟨by rw [hrun2]; rfl, ?_, ?_, ?_⟩
  · show min ((0.1 : ℚ) + (2 : Nat) * 0.001) 0.95 < 0.9
    rw [min_def]
    norm_num
  · rw [hrunB]
    simp
  · show min ((0.1 : ℚ) + (850 : Nat) * 0.001) 0.95 = 0.95
    rw [min_def]
    norm_num

/-- Witness for C9: a single silent line three time units after the run
started fires the stall fallback; its fraction obeys the amended bound. -/
theorem C9_stall_witness :
    stallFrac 1 ∈ stallFractions (runLines ⟨0, 0, ""⟩ [⟨"x", 3⟩]) ∧
    stallFrac 1 ≤ 0.95 := by
  have h1 : runLines ⟨0, 0, ""⟩ [⟨"x", 3⟩]
      = ⟨[⟨stallFrac 1, "Processing...", "x", RuleTag.stall⟩], 1, false,
         ⟨1, 3, "x"⟩⟩ := by
    rw [runLines_cons_noauth _ _ _ (by decide)]
    rw [show classifyRest ⟨0, 0, ""⟩ (⟨"x", 3⟩ : TimedLine)
        = (some ⟨stallFrac 1, "Processing...", "x", RuleTag.stall⟩,
           ⟨1, 3, "x"⟩) from by
      rw [classifyRest_stall ⟨0, 0, ""⟩ ⟨"x", 3⟩ (by decide) (by decide) rfl
        (by decide) (by show (2 : ℚ) < 3 - 0; norm_num)]
      rfl]
    rfl
  have hmem : stallFrac 1 ∈ stallFractions (runLines ⟨0, 0, ""⟩ [⟨"x", 3⟩]) := by
    rw [h1]
    simp [stallFractions]
  exact ⟨hmem, (C9_stall_fallback_amended 0 [⟨"x", 3⟩]).2 (stallFrac 1) hmem⟩

/-- C2 counterexample: a run whose first output line is the sudo
password-failure phrase, with the terminated process returning -15. The
run does emit the authentication event with fraction 1.0 and reads no
further line, but its terminal (last) progress update is the generic
failure event, not the authentication one: after the auth break the code
falls through to `process.wait()` and the exit-code branch. -/
theorem C2_counterexample :
    (execute_operation OpKind.install "testpkg" 0
        [⟨"sudo: a password is required", 0⟩] (-15)).events
      = [initEvent OpKind.install, authFailEvent,
         failEvent OpKind.install "testpkg"] ∧
    (execute_operation OpKind.install "testpkg" 0
        [⟨"sudo: a password is required", 0⟩] (-15)).consumed = 1 ∧
    authFailEvent.fraction = 1 ∧
    authFailEvent.rule = RuleTag.authFail ∧
    (execute_operation OpKind.install "testpkg" 0
        [⟨"sudo: a password is required", 0⟩] (-15)).events.getLast?
      = some (failEvent OpKind.install "testpkg") ∧
    (failEvent OpKind.install "testpkg").rule ≠ RuleTag.authFail :=
  ⟨rfl, rfl, rfl, rfl, rfl, by decide⟩

/-- C2 (amended): on the first streamed line containing an
authentication-failure phrase the run emits the authentication event
with fraction 1.0 and reads no further line; however the run then waits
on the terminated process and additionally emits a terminal exit-status
event — the generic failure event when the exit code is non-zero (the
usual case for a terminated process), or even the success event when it
is zero — so the last reported status is not the authentication one. -/
theorem C2_auth_failure_amended (op : OpKind) (pkgName : String) (t0 : ℚ)
    (pre post : List TimedLine) (a : TimedLine) (rc : Int)
    (hpre : ∀ l ∈ pre, hasAuthPhrase l.text = false)
    (ha : hasAuthPhrase a.text = true) :
    (execute_operation op pkgName t0 (pre ++ a :: post) rc).consumed
        = pre.length + 1 ∧
    authFailEvent ∈
      (execute_operation op pkgName t0 (pre ++ a :: post) rc).events ∧
    authFailEvent.fraction = 1 ∧
    (execute_operation op pkgName t0 (pre ++ a :: post) rc).terminatedByAuth
        = true ∧
    (rc ≠ 0 →
      (execute_operation op pkgName t0 (pre ++ a :: post) rc).events.getLast?
        = some (failEvent op pkgName)) ∧
    (rc = 0 →
      (execute_operation op pkgName t0 (pre ++ a :: post) rc).events.getLast?
        = some (successEvent op pkgName)) := by
  have hnb : (runLines ⟨0, t0, ""⟩ pre).authBroke = false :=
    runLines_noauth_noBreak pre _ hpre
  have happ := runLines_append pre ⟨0, t0, ""⟩ (a :: post) hnb
  have hauth := runLines_cons_auth (runLines ⟨0, t0, ""⟩ pre).finalState a
    post ha
  rw [hauth] at happ
  have hcons := runLines_noauth_consumed pre ⟨0, t0, ""⟩ hpre
  refine ⟨?_, ?_, rfl, ?_, ?_, ?_⟩
  · show (runLines ⟨0, t0, ""⟩ (pre ++ a :: post)).consumed = pre.length + 1
    rw [happ]
    dsimp only
    rw [hcons]
  · show authFailEvent ∈ initEvent op ::
        ((runLines ⟨0, t0, ""⟩ (pre ++ a :: post)).events ++
          [if rc == 0 then successEvent op pkgName else failEvent op pkgName])
    rw [happ]
    dsimp only
    simp
  · show (runLines ⟨0, t0, ""⟩ (pre ++ a :: post)).authBroke = true
    rw [happ]
  · intro hrc
    have hif : (if rc == 0 then successEvent op pkgName
        else failEvent op pkgName) = failEvent op pkgName := by
      rw [if_neg (by simp [hrc])]
    show (initEvent op ::
        ((runLines ⟨0, t0, ""⟩ (pre ++ a :: post)).events ++
          [if rc == 0 then successEvent op pkgName
           else failEvent op pkgName])).getLast?
      = some (failEvent op pkgName)
    rw [hif, ← List.cons_append, List.getLast?_concat]
  · intro hrc
    have hif : (if rc == 0 then successEvent op pkgName
        else failEvent op pkgName) = successEvent op pkgName := by
      rw [if_pos (by simp [hrc])]
    show (initEvent op ::
        ((runLines ⟨0, t0, ""⟩ (pre ++ a :: post)).events ++
          [if rc == 0 then successEvent op pkgName
           else failEvent op pkgName])).getLast?
      = some (successEvent op pkgName)
    rw [hif, ← List.cons_append, List.getLast?_concat]

/-- Witness for C2: the amended theorem applied to a run whose only line
is the sudo terminal-failure phrase. -/
theorem C2_auth_witness :
    (execute_operation OpKind.install "pkg" 0
        [⟨"sudo: a terminal is required", 0⟩] (-15)).consumed
      = List.length ([] : List TimedLine) + 1 ∧
    (execute_operation OpKind.install "pkg" 0
        [⟨"sudo: a terminal is required", 0⟩] (-15)).terminatedByAuth = true ∧
    (execute_operation OpKind.install "pkg" 0
        [⟨"sudo: a terminal is required", 0⟩] (-15)).events.getLast?
      = some (failEvent OpKind.install "pkg") :=
  ⟨(C2_auth_failure_amended OpKind.install "pkg" 0 [] []
      ⟨"sudo: a terminal is required", 0⟩ (-15) (by simp) (by decide)).1,
   (C2_auth_failure_amended OpKind.install "pkg" 0 [] []
      ⟨"sudo: a terminal is required", 0⟩ (-15) (by simp) (by decide)).2.2.2.1,
   (C2_auth_failure_amended OpKind.install "pkg" 0 [] []
      ⟨"sudo: a terminal is required", 0⟩ (-15) (by simp)
      (by decide)).2.2.2.2.1 (by decide)⟩

/-- C1: in an uncancelled batch run whose pacman sub-command runs and
exits non-zero, the AUR sub-command is never launched, the outcome is
the pacman failure, and the queue is untouched. -/
theorem C1_pacman_failure_blocks_aur (queue : List PackageInfo)
    (c : CancelSchedule) (prc arc : Int)
    (hmono : c.Monotone) (hnc : c.atEnd = false)
    (hpac : (get_separated_packages queue).1 ≠ []) (hrc : prc ≠ 0) :
    (execute_queue_install queue c prc arc).aurLaunched = false ∧
    (execute_queue_install queue c prc arc).outcome = QOutcome.failedPacman ∧
    (execute_queue_install queue c prc arc).statusLabel
      = "✗ Failed to install official packages" ∧
    (execute_queue_install queue c prc arc).queueAfter = queue ∧
    (execute_queue_install queue c prc arc).queueCleared = false := by
  have h1 : c.afterPacmanLoop = false := by
    rcases hb : c.afterPacmanLoop with _ | _
    · rfl
    · exact absurd (hmono.2.2 (hmono.2.1 (hmono.1 hb))) (by simp [hnc])
  have hcond : (!(get_separated_packages queue).1.isEmpty
      && !c.afterPacmanLoop && (prc != 0)) = true := by
    simp [h1, hrc, hpac]
  unfold execute_queue_install
  rw [if_pos hcond]
  exact ⟨rfl, rfl, rfl, rfl, rfl⟩

/-- Witness for C1: one official package queued, pacman exits 1. -/
theorem C1_pacman_failure_witness :
    (execute_queue_install [⟨"foo", "1", "", "core", false⟩] noCancel 1 0).aurLaunched
        = false ∧
    (execute_queue_install [⟨"foo", "1", "", "core", false⟩] noCancel 1 0).outcome
        = QOutcome.failedPacman :=
  ⟨(C1_pacman_failure_blocks_aur [⟨"foo", "1", "", "core", false⟩] noCancel 1 0
      ⟨fun h => absurd h (by decide), fun h => absurd h (by decide),
        fun h => absurd h (by decide)⟩ rfl (by decide) (by decide)).1,
   (C1_pacman_failure_blocks_aur [⟨"foo", "1", "", "core", false⟩] noCancel 1 0
      ⟨fun h => absurd h (by decide), fun h => absurd h (by decide),
        fun h => absurd h (by decide)⟩ rfl (by decide) (by decide)).2.1⟩

/-- C3: under the monotone cancellation flag, the queue is cleared
exactly when the run ends uncancelled with every sub-command that was
actually needed exiting zero; clearing coincides with the success
outcome, a cleared run leaves the queue empty, and a failed or cancelled
run leaves the queue exactly as it was. -/
theorem C3_queue_cleared_iff_full_success (queue : List PackageInfo)
    (c : CancelSchedule) (prc arc : Int) (hmono : c.Monotone) :
    ((execute_queue_install queue c prc arc).queueCleared = true ↔
      (c.atEnd = false ∧
       ((get_separated_packages queue).1 ≠ [] → prc = 0) ∧
       ((get_separated_packages queue).2 ≠ [] → arc = 0))) ∧
    ((execute_queue_install queue c prc arc).queueCleared = true ↔
      (execute_queue_install queue c prc arc).outcome = QOutcome.success) ∧
    ((execute_queue_install queue c prc arc).queueCleared = true →
      (execute_queue_install queue c prc arc).queueAfter = []) ∧
    ((execute_queue_install queue c prc arc).queueCleared = false →
      (execute_queue_install queue c prc arc).queueAfter = queue) := by
  rcases hc4 : c.atEnd with _ | _
  · have hc3 : c.afterAurLoop = false := by
      rcases hb : c.afterAurLoop with _ | _
      · rfl
      · exact absurd (hmono.2.2 hb) (by simp [hc4])
    have hc2 : c.beforeAur = false := by
      rcases hb : c.beforeAur with _ | _
      · rfl
      · exact absurd (hmono.2.2 (hmono.2.1 hb)) (by simp [hc4])
    have hc1 : c.afterPacmanLoop = false := by
      rcases hb : c.afterPacmanLoop with _ | _
      · rfl
      · exact absurd (hmono.2.2 (hmono.2.1 (hmono.1 hb))) (by simp [hc4])
    unfold execute_queue_install
    rw [hc1, hc2, hc3, hc4]
    by_cases hpe : (get_separated_packages queue).1 = []
    · by_cases hae : (get_separated_packages queue).2 = []
      · simp [hpe, hae]
      · by_cases harc : arc = 0
        · simp [hpe, hae, harc]
        · simp [hpe, hae, harc]
    · by_cases hprc : prc = 0
      · by_cases hae : (get_separated_packages queue).2 = []
        · simp [hpe, hae, hprc]
        · by_cases harc : arc = 0
          · simp [hpe, hae, hprc, harc]
          · simp [hpe, hae, hprc, harc]
      · simp [hpe, hprc]
  · unfold execute_queue_install
    rw [hc4]
    split
    · simp
    · split
      · simp
      · split
        · simp_all
        · simp

/-- Witness for C3: one official and one AUR package, both sub-commands
exit zero, the run is uncancelled: the queue is cleared. -/
theorem C3_queue_cleared_witness :
    (execute_queue_install
        [⟨"foo", "1", "", "core", false⟩, ⟨"bar", "1", "", "aur", false⟩]
        noCancel 0 0).queueCleared = true ∧
    (execute_queue_install
        [⟨"foo", "1", "", "core", false⟩, ⟨"bar", "1", "", "aur", false⟩]
        noCancel 0 0).queueAfter = [] := by
  have h := C3_queue_cleared_iff_full_success
    [⟨"foo", "1", "", "core", false⟩, ⟨"bar", "1", "", "aur", false⟩]
    noCancel 0 0
    ⟨fun hx => absurd hx (by decide), fun hx => absurd hx (by decide),
     fun hx => absurd hx (by decide)⟩
  have hcl := (h.1).mpr ⟨rfl, fun _ => rfl, fun _ => rfl⟩
  exact ⟨hcl, h.2.2.1 hcl⟩
